import Mathlib

/-!
Verification of the AI Context & Memory Subsystem of the alex-backend
repository: the response cache (`AICache`), the AI service dispatch
(`AIService.chat`, `AIService.execute_agent`), the provider adapters'
failure mapping (Ollama, LM Studio), and the memory service
(`MemoryService`).  Each definition is a shallow embedding of the
corresponding Python function; timestamps are modelled as natural
numbers (seconds), database tables as Lean lists of row structures,
and raised exceptions as `Except` errors.
-/

namespace AlexBackend

/-! ### Character-list string primitives

The embedding implements the Python string operations the subsystem
uses (`str.lower`, `str.replace`, `str.split`, substring containment)
as structural recursions over `String.data`, so that every definition
evaluates on concrete inputs.  They agree with the Python operations on
the ASCII strings this code handles. -/

/-- Whether `pat` is a leading segment of `s`. -/
def startsWithPat : List Char → List Char → Bool
  | [], _ => true
  | _ :: _, [] => false
  | p :: ps, c :: cs => p == c && startsWithPat ps cs

/-- Whether `pat` occurs as a contiguous substring of `s`
(SQL `LIKE %pat%` / Python `pat in s`). -/
def hasSub (pat : List Char) : List Char → Bool
  | [] => pat.isEmpty
  | c :: cs => startsWithPat pat (c :: cs) || hasSub pat cs

/-- One pass of Python `str.replace`: replace each non-overlapping
occurrence of `pat` left to right.  `fuel` is any bound on the length
of the text (the recursion consumes at least one character per step);
an empty pattern leaves the text unchanged (the code never replaces an
empty pattern). -/
def replaceChars (pat rep : List Char) : Nat → List Char → List Char
  | 0, rest => rest
  | _ + 1, [] => []
  | fuel + 1, c :: cs =>
      if !pat.isEmpty && startsWithPat pat (c :: cs) then
        rep ++ replaceChars pat rep fuel ((c :: cs).drop pat.length)
      else
        c :: replaceChars pat rep fuel cs

/-- Python `s.replace(pat, rep)`. -/
def strReplace (s pat rep : String) : String :=
  ⟨replaceChars pat.data rep.data s.data.length s.data⟩

/-- Python `s.lower()` (ASCII case mapping). -/
def strToLower (s : String) : String :=
  ⟨s.data.map Char.toLower⟩

/-- Python `s.split()`: split on whitespace runs, dropping empty
words.  `cur` accumulates the current word reversed. -/
def pySplitWsAux : List Char → List Char → List String
  | [], cur => if cur.isEmpty then [] else [⟨cur.reverse⟩]
  | c :: cs, cur =>
      if c.isWhitespace then
        if cur.isEmpty then pySplitWsAux cs [] else ⟨cur.reverse⟩ :: pySplitWsAux cs []
      else
        pySplitWsAux cs (c :: cur)

/-- Python `s.split()` with no separator argument. -/
def pySplitWs (s : String) : List String :=
  pySplitWsAux s.data []

/-- `APIError` from `src/utils/errors.py`: carries a human-readable
message and an HTTP status code. -/
structure APIError where
  message : String
  status_code : Nat
deriving DecidableEq

/-! ## AICache (`src/services/ai_service.py`, class `AICache`)

The Python cache is a dict from hex key to `{'response': r,
'timestamp': t}`.  We model the dict as an association list whose keys
are unique (Python dicts cannot hold duplicate keys), and the stored
response type as a type parameter `α` (the code stores arbitrary
dicts). -/

/-- One cache entry: `{'response': ..., 'timestamp': ...}`. -/
structure CacheEntry (α : Type) where
  response : α
  timestamp : Nat
deriving DecidableEq

/-- The cache dictionary `self.cache`. -/
def Cache (α : Type) : Type := List (String × CacheEntry α)

/-- The Python-dict invariant: all keys distinct. -/
def KeysNodup {α : Type} (c : Cache α) : Prop := (c.map Prod.fst).Nodup

/-- Dict lookup `self.cache[key]` / `key in self.cache`. -/
def cacheLookup {α : Type} (key : String) : Cache α → Option (CacheEntry α)
  | [] => none
  | (k, e) :: rest => if k = key then some e else cacheLookup key rest

/-- Dict deletion `del self.cache[key]`. -/
def cacheErase {α : Type} (key : String) : Cache α → Cache α
  | [] => []
  | (k, e) :: rest => if k = key then rest else (k, e) :: cacheErase key rest

/-- Dict assignment `self.cache[key] = entry`: replaces the entry when
the key is present, otherwise appends it. -/
def cacheInsert {α : Type} (key : String) (e : CacheEntry α) : Cache α → Cache α
  | [] => [(key, e)]
  | (k, e') :: rest =>
      if k = key then (key, e) :: rest else (k, e') :: cacheInsert key e rest

/-- `AICache._generate_key`: `content = f'{model}:{prompt}'` followed by
`hashlib.md5(content.encode()).hexdigest()`.  The MD5 hex digest is a
fixed function of the content string, so we identify keys with the
pre-hash content; every key collision exhibited below is already a
collision of the content strings and therefore a collision of the real
MD5 keys as well. -/
def AICache.generate_key (prompt : String) (model : String) : String :=
  model ++ ":" ++ prompt

/-- `AICache.get`: returns the cached response if the entry exists and
`now - entry['timestamp'] < ttl`; an expired entry is deleted and the
lookup misses.  Returns the (possibly mutated) cache alongside. -/
def AICache.get {α : Type} (ttl : Nat) (now : Nat) (prompt model : String)
    (c : Cache α) : Option α × Cache α :=
  let key := AICache.generate_key prompt model
  match cacheLookup key c with
  | some entry =>
      if now - entry.timestamp < ttl then (some entry.response, c)
      else (none, cacheErase key c)
  | none => (none, c)

/-- `AICache.set`: stores `{'response': response, 'timestamp': now}`
under the derived key. -/
def AICache.set {α : Type} (now : Nat) (prompt model : String) (response : α)
    (c : Cache α) : Cache α :=
  cacheInsert (AICache.generate_key prompt model) ⟨response, now⟩ c

/-- `AICache.stats()['size']`, i.e. `len(self.cache)`. -/
def AICache.statsSize {α : Type} (c : Cache α) : Nat := c.length

/-! ## Provider adapters (`src/services/ai_providers/ollama.py`,
`src/services/ai_providers/lmstudio.py`)

Both `chat` implementations perform one HTTP POST and translate the
possible `requests` exceptions into `APIError`s.  We model the upstream
outcome of the POST explicitly: `timeout` is `requests.exceptions.Timeout`,
`connectionError` is `requests.exceptions.ConnectionError`, `httpStatus`
is the `requests.exceptions.HTTPError` raised by `raise_for_status()` on
a non-2xx response (carrying the upstream status code, the response body
when non-empty, and the exception text `str(e)`), and `otherError` is any
other request exception. -/

/-- A failed upstream HTTP call, as classified by the `except` clauses. -/
inductive HTTPFailure where
  | timeout : HTTPFailure
  | connectionError : HTTPFailure
  | httpStatus (status : Nat) (body : Option String) (msg : String) : HTTPFailure
  | otherError (msg : String) : HTTPFailure

/-- `OllamaProvider.chat`, failure branches: `Timeout` → 504,
`ConnectionError` → 503, and every remaining `RequestException`
(including the `HTTPError` from `raise_for_status()`) → 500. -/
def OllamaProvider.chat_failure : HTTPFailure → APIError
  | .timeout => ⟨"AI service timeout. Please try again.", 504⟩
  | .connectionError => ⟨"AI service unavailable. Please ensure Ollama is running.", 503⟩
  | .httpStatus _ _ msg => ⟨"AI service error: " ++ msg, 500⟩
  | .otherError msg => ⟨"AI service error: " ++ msg, 500⟩

/-- `LMStudioProvider.chat`, failure branches: `Timeout` → 504,
`ConnectionError` → 503, `HTTPError` → the upstream status code with the
response body as detail when the body is non-empty (`e.response.json()
if e.response.content else str(e)`), any other exception → 500. -/
def LMStudioProvider.chat_failure : HTTPFailure → APIError
  | .timeout =>
      ⟨"LM Studio request timeout. Model may be processing. Try increasing timeout.", 504⟩
  | .connectionError =>
      ⟨"Cannot connect to LM Studio. Ensure LM Studio is running and a model is loaded.", 503⟩
  | .httpStatus status body msg => ⟨"LM Studio error: " ++ body.getD msg, status⟩
  | .otherError msg => ⟨"Unexpected error: " ++ msg, 500⟩

/-! ## AIService (`src/services/ai_service.py`, class `AIService`) -/

/-- `AIService.chat`.  The outcome the provider adapter would produce is
passed in as `providerResult` (`.error e` models the adapter raising
`e`).  The model name is resolved as `model or self.provider.default_model`;
when caching is active the cache is consulted first and the provider
response is stored only on success — a raised error propagates before
the `self.cache.set` line is reached.  Returns the chat result together
with the final cache state. -/
def AIService.chat {α : Type} (ttl now : Nat) (prompt : String)
    (model : Option String) (use_cache enable_cache : Bool)
    (default_model : String) (providerResult : Except APIError α)
    (cache : Cache α) : Except APIError α × Cache α :=
  let model_name := model.getD default_model
  if enable_cache && use_cache then
    match AICache.get ttl now prompt model_name cache with
    | (some cached, cache') => (.ok cached, cache')
    | (none, cache') =>
        match providerResult with
        | .error e => (.error e, cache')
        | .ok response => (.ok response, AICache.set now prompt model_name response cache')
  else
    (providerResult, cache)

/-! ## Prompt templates (`src/services/prompts.py`) -/

/-- `PromptTemplates.AGENTS`: the four agent prompt templates. -/
def PromptTemplates.AGENTS : List (String × String) :=
  [("benchmarking", "You are a benchmarking specialist. Analyze and compare the following data against industry standards. Provide specific metrics and recommendations.\n\nContext: \x7bcontext\x7d\n\nPlease provide:\n1. Key performance indicators\n2. Industry comparisons\n3. Recommendations for improvement"),
   ("persona_generation", "You are an expert in creating detailed user personas. Generate a comprehensive persona based on the following information.\n\nContext: \x7bcontext\x7d\n\nPlease provide:\n1. Demographics\n2. Goals and motivations\n3. Pain points\n4. Behavioral patterns"),
   ("data_analysis", "You are a data analyst. Analyze the following data and provide actionable insights.\n\nContext: \x7bcontext\x7d\n\nPlease provide:\n1. Key findings\n2. Trends and patterns\n3. Statistical insights\n4. Recommendations"),
   ("report_writing", "You are a professional report writer. Create a comprehensive, well-structured report on the following topic.\n\nContext: \x7bcontext\x7d\n\nPlease provide:\n1. Executive summary\n2. Detailed analysis\n3. Conclusions\n4. Recommendations")]

/-- `PromptTemplates.get_agent_prompt`: normalizes the agent name
(`agent_name.lower().replace(' ', '_')`), looks it up in `AGENTS`, and
either raises `ValueError` (modelled as `.error`) or substitutes the
context into the template (`template.format(context=context)`). -/
def PromptTemplates.get_agent_prompt (agent_name context : String) :
    Except String String :=
  let agent_key := strReplace (strToLower agent_name) " " "_"
  match (PromptTemplates.AGENTS.find? (fun p => p.1 == agent_key)).map Prod.snd with
  | none => .error ("Unknown agent: " ++ agent_name)
  | some template => .ok (strReplace template "\x7bcontext\x7d" context)

/-- The chat dispatch made by `execute_agent`: the prompt handed to
`self.chat` and the `timeout` keyword it passes along. -/
structure ChatCall where
  prompt : String
  timeout : Nat
deriving DecidableEq

/-- `AIService.execute_agent`, up to the dispatch into `self.chat`: an
unknown agent's `ValueError` is caught and re-raised as
`APIError(str(e), 404)` before any chat (and hence any provider) call;
a known agent's formatted template is dispatched through `chat` with
`timeout=60`. -/
def AIService.execute_agent (agent_name context : String) :
    Except APIError ChatCall :=
  match PromptTemplates.get_agent_prompt agent_name context with
  | .error msg => .error ⟨msg, 404⟩
  | .ok prompt => .ok ⟨prompt, 60⟩

/-! ## MemoryService (`src/services/memory_service.py`)

The ORM model classes `UserMemory` and `ConversationHistory` are
imported from `src.models.models` but that module (as shipped under
`src/`) does not define them; their row schemas are modelled from the
spec (§3).  The service logic below is translated from
`memory_service.py` itself.  A table is a list of rows in insertion
order; `query.filter_by(...).first()` is the head of the filtered list
(`LIMIT 1` over the filter), and an ORM in-place row mutation replaces
the first matching row of the list. -/

/-- Modelled from the spec: the `UserMemory` row (`src.models.models`
is not shipped with the memory tables) — unique on
`(user_id, memory_type, key)`, holding `value`, `confidence`,
`access_count`, `last_accessed`, `updated_at` (spec §3). -/
structure UserMemoryRow where
  id : Nat
  user_id : Nat
  memory_type : String
  key : String
  value : String
  confidence : ℚ
  updated_at : Nat
  access_count : Nat
  last_accessed : Option Nat
deriving DecidableEq

/-- Modelled from the spec: the `ConversationHistory` row — one row per
message turn with `user_id`, `session_id`, `role`, `message`,
`tokens_used`, `created_at` (spec §3). -/
structure ConversationRow where
  id : Nat
  user_id : Nat
  session_id : String
  role : String
  message : String
  tokens_used : Nat
  created_at : Nat
deriving DecidableEq

/-- The `filter_by(user_id=..., memory_type=..., key=...)` predicate. -/
def mem_matches (u : Nat) (t k : String) (m : UserMemoryRow) : Bool :=
  m.user_id == u && m.memory_type == t && m.key == k

/-- `UserMemory.query.filter_by(...).first()`. -/
def find_memory (u : Nat) (t k : String) (tbl : List UserMemoryRow) :
    Option UserMemoryRow :=
  (tbl.filter (mem_matches u t k)).head?

/-- ORM in-place mutation of the row returned by `.first()`: rewrite the
first row satisfying `p` with `f`. -/
def updateFirst (p : UserMemoryRow → Bool) (f : UserMemoryRow → UserMemoryRow) :
    List UserMemoryRow → List UserMemoryRow
  | [] => []
  | r :: rs => if p r then f r :: rs else r :: updateFirst p f rs

/-- The in-place overwrite performed by `save_memory` on an existing
row: `memory.value = value; memory.confidence = confidence;
memory.updated_at = datetime.utcnow()`. -/
def overwriteMemory (v : String) (c : ℚ) (now : Nat) (m : UserMemoryRow) :
    UserMemoryRow :=
  { m with value := v, confidence := c, updated_at := now }

/-- The fresh row created by `save_memory` when no match exists
(`UserMemory(...)` then `db.session.add`), with column defaults
`access_count = 0` and `last_accessed` unset. -/
def freshMemoryRow (fresh_id u : Nat) (t k v : String) (c : ℚ) (now : Nat) :
    UserMemoryRow :=
  { id := fresh_id, user_id := u, memory_type := t, key := k, value := v,
    confidence := c, updated_at := now, access_count := 0, last_accessed := none }

/-- The access-tracking mutation performed by `get_memory` on a hit:
`memory.last_accessed = datetime.utcnow(); memory.access_count += 1`. -/
def touchMemory (now : Nat) (m : UserMemoryRow) : UserMemoryRow :=
  { m with last_accessed := some now, access_count := m.access_count + 1 }

/-- `MemoryService.save_memory`: upsert.  An existing
`(user_id, memory_type, key)` row gets `value`, `confidence` and
`updated_at = now` overwritten in place; otherwise a fresh row is
appended. -/
def MemoryService.save_memory (now : Nat) (u : Nat) (t k v : String)
    (confidence : ℚ) (fresh_id : Nat) (tbl : List UserMemoryRow) :
    List UserMemoryRow :=
  match find_memory u t k tbl with
  | some _ => updateFirst (mem_matches u t k) (overwriteMemory v confidence now) tbl
  | none => tbl ++ [freshMemoryRow fresh_id u t k v confidence now]

/-- `MemoryService.get_memory`: looks up the
`(user_id, memory_type, key)` row; on a hit it sets
`last_accessed = now`, increments `access_count`, commits, and returns
the row (its `to_dict` rendering); on a miss it returns `None` and
leaves the table untouched.  Returns the result together with the
resulting table. -/
def MemoryService.get_memory (now : Nat) (u : Nat) (t k : String)
    (tbl : List UserMemoryRow) : Option UserMemoryRow × List UserMemoryRow :=
  match find_memory u t k tbl with
  | some m =>
      (some (touchMemory now m),
       updateFirst (mem_matches u t k) (touchMemory now) tbl)
  | none => (none, tbl)

/-- SQL `column.contains(q)` (`LIKE %q%`): substring match. -/
def strContains (s pat : String) : Bool :=
  hasSub pat.data s.data

/-- The `search_memories` row predicate:
`user_id == u and (key.contains(q) or value.contains(q))`. -/
def mem_keyword_matches (u : Nat) (q : String) (m : UserMemoryRow) : Bool :=
  m.user_id == u && (strContains m.key q || strContains m.value q)

/-- Insert into a confidence-descending list (the sort underlying
`order_by(desc(UserMemory.confidence))`). -/
def insertConfDesc (x : UserMemoryRow) : List UserMemoryRow → List UserMemoryRow
  | [] => [x]
  | y :: ys => if y.confidence < x.confidence then x :: y :: ys else y :: insertConfDesc x ys

/-- `order_by(desc(UserMemory.confidence))`. -/
def sortConfDesc (l : List UserMemoryRow) : List UserMemoryRow :=
  l.foldr insertConfDesc []

/-- `MemoryService.search_memories`: keyword search over key/value with
a confidence-descending order and a row limit. -/
def MemoryService.search_memories (u : Nat) (q : String) (limit : Nat)
    (tbl : List UserMemoryRow) : List UserMemoryRow :=
  (sortConfDesc (tbl.filter (mem_keyword_matches u q))).take limit

/-- Keyword extraction in `_get_relevant_memories`:
`[word.lower() for word in message.split() if len(word) > 4]`. -/
def extract_keywords (message : String) : List String :=
  ((pySplitWs message).filter (fun w => 4 < w.length)).map strToLower

/-- The duplicate-removal loop of `_get_relevant_memories`: walk the
collected list with a `seen` set of memory ids, keeping first
occurrences. -/
def dedupByIdLoop : List UserMemoryRow → List Nat → List UserMemoryRow
  | [], _ => []
  | m :: ms, seen =>
      if seen.contains m.id then dedupByIdLoop ms seen
      else m :: dedupByIdLoop ms (m.id :: seen)

/-- `MemoryService._get_relevant_memories`: extract keywords, loop over
`keywords[:3]` extending `relevant` with `search_memories(u, kw, limit=2)`,
deduplicate by id, return `unique_memories[:5]`. -/
def MemoryService.get_relevant_memories (u : Nat) (message : String)
    (tbl : List UserMemoryRow) : List UserMemoryRow :=
  let keywords := extract_keywords message
  let relevant := (keywords.take 3).foldl
    (fun acc kw => acc ++ MemoryService.search_memories u kw 2 tbl) []
  (dedupByIdLoop relevant []).take 5

/-- First-occurrence deduplication, filter-style: keep the head, strip
its duplicates from the tail, recurse.  The `fuel` argument (any bound
on the list length) only forces structural recursion. -/
def dedupKeepFirstStrGo : Nat → List String → List String
  | 0, _ => []
  | _ + 1, [] => []
  | fuel + 1, x :: xs => x :: dedupKeepFirstStrGo fuel (xs.filter (fun y => !(y == x)))

/-- First-occurrence deduplication of a keyword list, written as in the
spec ("the first 3 distinct keywords"). -/
def dedupKeepFirstStr (l : List String) : List String :=
  dedupKeepFirstStrGo l.length l

/-- First-occurrence deduplication of memories by id, filter-style,
with a structural fuel bound. -/
def dedupKeepFirstMemGo : Nat → List UserMemoryRow → List UserMemoryRow
  | 0, _ => []
  | _ + 1, [] => []
  | fuel + 1, m :: ms =>
      m :: dedupKeepFirstMemGo fuel (ms.filter (fun x => !(x.id == m.id)))

/-- First-occurrence deduplication of memories by id, written
filter-style. -/
def dedupKeepFirstMem (l : List UserMemoryRow) : List UserMemoryRow :=
  dedupKeepFirstMemGo l.length l

/-- The relevant-memories policy exactly as the spec words it: words
longer than 4 characters, the first 3 **distinct** keywords, up to 2
substring matches per keyword, concatenated in keyword order,
deduplicated by memory id keeping first occurrences, capped at 5. -/
def spec_relevant_memories_policy (u : Nat) (message : String)
    (tbl : List UserMemoryRow) : List UserMemoryRow :=
  let keywords := (dedupKeepFirstStr (extract_keywords message)).take 3
  (dedupKeepFirstMem (keywords.flatMap
    (fun kw => MemoryService.search_memories u kw 2 tbl))).take 5

/-- The amended policy: identical to the spec's wording except that the
first 3 keywords are kept with their duplicates (no distinctness
filter), matching the code. -/
def amended_relevant_memories_policy (u : Nat) (message : String)
    (tbl : List UserMemoryRow) : List UserMemoryRow :=
  let keywords := (extract_keywords message).take 3
  (dedupKeepFirstMem (keywords.flatMap
    (fun kw => MemoryService.search_memories u kw 2 tbl))).take 5

/-- Insert into a `created_at`-descending list (the sort underlying
`order_by(desc(ConversationHistory.created_at))`). -/
def insertCreatedDesc (x : ConversationRow) : List ConversationRow → List ConversationRow
  | [] => [x]
  | y :: ys => if y.created_at < x.created_at then x :: y :: ys else y :: insertCreatedDesc x ys

/-- `order_by(desc(ConversationHistory.created_at))`. -/
def sortCreatedDesc (l : List ConversationRow) : List ConversationRow :=
  l.foldr insertCreatedDesc []

/-- `MemoryService.get_recent_conversations`: filter by user, filter by
session when a non-empty `session_id` is supplied (`if session_id:` —
`None` and `''` both skip the filter), fetch the `limit` most recent
rows in descending `created_at` order, then reverse into chronological
order. -/
def MemoryService.get_recent_conversations (u : Nat) (limit : Nat)
    (session_id : Option String) (tbl : List ConversationRow) :
    List ConversationRow :=
  let q := tbl.filter (fun c => c.user_id == u)
  let q := match session_id with
    | some s => if s = "" then q else q.filter (fun c => c.session_id == s)
    | none => q
  ((sortCreatedDesc q).take limit).reverse

/-! ## Context assembly and formatting
(`MemoryService._get_tasks_context`, `MemoryService.format_context_for_ai`) -/

/-- The `Task` row (`src/models/models.py`), restricted to the columns
the memory subsystem reads. -/
structure TaskRow where
  id : Nat
  title : String
  status : String
  urgent : Bool
  deadline : Option Nat
  assignee_id : Nat
deriving DecidableEq

/-- Deadline comparison for `order_by(..., Task.deadline)`: ascending
with SQL `NULL`s first. -/
def deadlineLE (a b : Option Nat) : Bool :=
  match a, b with
  | none, _ => true
  | some _, none => false
  | some x, some y => x ≤ y

/-- Sort key for `order_by(desc(Task.urgent), Task.deadline)`: urgent
rows first, then by deadline. -/
def taskBefore (a b : TaskRow) : Bool :=
  let rank := fun t : TaskRow => if t.urgent then (0 : Nat) else 1
  rank a < rank b || (rank a == rank b && deadlineLE a.deadline b.deadline)

/-- Insertion into a `taskBefore`-sorted list. -/
def insertTask (x : TaskRow) : List TaskRow → List TaskRow
  | [] => [x]
  | y :: ys => if taskBefore x y then x :: y :: ys else y :: insertTask x ys

/-- `MemoryService._get_tasks_context`: tasks assigned to the user with
status in `['todo', 'in-progress']`, ordered urgent-first then by
deadline, limited to 10. -/
def MemoryService.get_tasks_context (u : Nat) (tbl : List TaskRow) :
    List TaskRow :=
  ((tbl.filter (fun t => t.assignee_id == u
      && (t.status == "todo" || t.status == "in-progress"))).foldr insertTask []).take 10

/-- The `user_profile` sub-dict of the context. -/
structure UserProfile where
  name : String
  role : String
  email : String
deriving DecidableEq

/-- The fields of a task `to_dict` read by `format_context_for_ai`. -/
structure TaskCtx where
  urgent : Bool
  title : String
  status : String
deriving DecidableEq

/-- The fields of a memory `to_dict` read by `format_context_for_ai`. -/
structure MemCtx where
  key : String
  value : String
deriving DecidableEq

/-- The fields of a conversation `to_dict` read by
`format_context_for_ai`. -/
structure ConvCtx where
  role : String
  message : String
deriving DecidableEq

/-- The context dict assembled by `build_ai_context` (an absent user
profile is the empty dict, which is falsy). -/
structure AIContext where
  user_profile : Option UserProfile
  preferences : List String
  recent_conversations : List ConvCtx
  active_tasks : List TaskCtx
  relevant_memories : List MemCtx
  current_message : String

/-- Python `str.capitalize()`: first character upper-cased, the rest
lower-cased. -/
def strCapitalize (s : String) : String :=
  match s.data with
  | [] => ""
  | c :: cs => ⟨c.toUpper :: cs.map Char.toLower⟩

/-- Python `l[-5:]`: the last five elements (all of them when fewer). -/
def lastFive {β : Type} (l : List β) : List β :=
  l.drop (l.length - 5)

/-- `MemoryService.format_context_for_ai`: renders the context sections
in fixed order — profile line, preferences, the first five active tasks
(`context['active_tasks'][:5]`) with an urgency marker, relevant
memories, and the last five conversation turns with messages truncated
to 100 characters — each section emitted only when its list (or dict)
is truthy, joined with newlines. -/
def MemoryService.format_context_for_ai (ctx : AIContext) : String :=
  let profileParts := match ctx.user_profile with
    | some p => ["User: " ++ p.name ++ " (" ++ p.role ++ ")"]
    | none => []
  let prefParts := if ctx.preferences.isEmpty then [] else
    "\nUser Preferences:" :: ctx.preferences.map (fun pref => "- " ++ pref)
  let taskParts := if ctx.active_tasks.isEmpty then [] else
    "\nActive Tasks:" :: (ctx.active_tasks.take 5).map
      (fun t => (if t.urgent then "🔴" else "🟢") ++ " " ++ t.title ++ " (" ++ t.status ++ ")")
  let memParts := if ctx.relevant_memories.isEmpty then [] else
    "\nRelevant Past Context:" :: ctx.relevant_memories.map
      (fun m => "- " ++ m.key ++ ": " ++ m.value)
  let convParts := if ctx.recent_conversations.isEmpty then [] else
    "\nRecent Conversation:" :: (lastFive ctx.recent_conversations).map
      (fun c => strCapitalize c.role ++ ": " ++ c.message.take 100)
  String.intercalate "\n" (profileParts ++ prefParts ++ taskParts ++ memParts ++ convParts)

/-! ### Association-list lemmas for the cache -/

theorem cacheLookup_cacheInsert_self {α : Type} (key : String) (e : CacheEntry α) :
    ∀ c : Cache α, cacheLookup key (cacheInsert key e c) = some e := by
  intro c
  induction c with
  | nil => simp [cacheInsert, cacheLookup]
  | cons p rest ih =>
      obtain ⟨k, e'⟩ := p
      by_cases h : k = key
      · simp [cacheInsert, cacheLookup, h]
      · simp [cacheInsert, cacheLookup, h, ih]

theorem cacheLookup_eq_none_of_not_mem {α : Type} (key : String) :
    ∀ c : Cache α, key ∉ c.map Prod.fst → cacheLookup key c = none := by
  intro c
  induction c with
  | nil => simp [cacheLookup]
  | cons p rest ih =>
      obtain ⟨k, e⟩ := p
      intro hmem
      simp only [List.map_cons, List.mem_cons] at hmem
      push_neg at hmem
      have hk : k ≠ key := fun h => hmem.1 h.symm
      simp [cacheLookup, hk, ih hmem.2]

theorem cacheLookup_cacheErase_self {α : Type} (key : String) :
    ∀ c : Cache α, KeysNodup c → cacheLookup key (cacheErase key c) = none := by
  intro c
  induction c with
  | nil => simp [cacheErase, cacheLookup]
  | cons p rest ih =>
      obtain ⟨k, e⟩ := p
      intro hnd
      unfold KeysNodup at hnd
      simp only [List.map_cons, List.nodup_cons] at hnd
      by_cases h : k = key
      · subst h
        simp only [cacheErase, if_pos rfl]
        exact cacheLookup_eq_none_of_not_mem k rest hnd.1
      · simp [cacheErase, cacheLookup, h, ih hnd.2]

theorem cacheLookup_cacheErase_ne {α : Type} (key k' : String) (hne : k' ≠ key) :
    ∀ c : Cache α, cacheLookup k' (cacheErase key c) = cacheLookup k' c := by
  intro c
  induction c with
  | nil => simp [cacheErase]
  | cons p rest ih =>
      obtain ⟨k, e⟩ := p
      by_cases h : k = key
      · subst h
        have : k ≠ k' := fun h' => hne h'.symm
        simp [cacheErase, cacheLookup, this]
      · by_cases h2 : k = k'
        · simp [cacheErase, cacheLookup, h, h2, hne]
        · simp [cacheErase, cacheLookup, h, h2, ih]

theorem length_cacheErase_of_mem {α : Type} (key : String) :
    ∀ c : Cache α, (cacheLookup key c).isSome →
      (cacheErase key c).length + 1 = c.length := by
  intro c
  induction c with
  | nil => simp [cacheLookup]
  | cons p rest ih =>
      obtain ⟨k, e⟩ := p
      intro hmem
      by_cases h : k = key
      · simp [cacheErase, h]
      · simp only [cacheLookup, if_neg h] at hmem
        simp [cacheErase, h, ih hmem]

/-! ### Claim C1: cache TTL round-trip and lazy expiry -/

/-- C1: for the `AICache` with TTL `ttl`, a `set(p, m, r)` followed by a
`get(p, m)` strictly less than `ttl` seconds later returns `r`
unchanged; and a `get(p, m)` performed when `now - stored_timestamp ≥
ttl` returns absent, deletes the entry for that key, and leaves
`stats().size` one smaller than before the `get`. -/
theorem cache_ttl_roundtrip_and_lazy_expiry {α : Type} :
    (∀ (c : Cache α) (p m : String) (r : α) (ttl tset tget : Nat),
        tset ≤ tget → tget < tset + ttl →
        (AICache.get ttl tget p m (AICache.set tset p m r c)).1 = some r)
    ∧ (∀ (c : Cache α) (p m : String) (ttl now : Nat) (e : CacheEntry α),
        KeysNodup c →
        cacheLookup (AICache.generate_key p m) c = some e →
        ttl ≤ now - e.timestamp →
        (AICache.get ttl now p m c).1 = none
        ∧ cacheLookup (AICache.generate_key p m) (AICache.get ttl now p m c).2 = none
        ∧ AICache.statsSize (AICache.get ttl now p m c).2 + 1
            = AICache.statsSize c) := by
  constructor
  · intro c p m r ttl tset tget hle hfresh
    have hfresh' : tget - tset < ttl := by omega
    simp [AICache.get, AICache.set, cacheLookup_cacheInsert_self, hfresh']
  · intro c p m ttl now e hnd hlk hexp
    have hstale : ¬ (now - e.timestamp < ttl) := by omega
    refine ⟨?_, ?_, ?_⟩
    · simp [AICache.get, hlk, hstale]
    · simp only [AICache.get, hlk, if_neg hstale]
      exact cacheLookup_cacheErase_self _ c hnd
    · simp only [AICache.get, hlk, if_neg hstale, AICache.statsSize]
      exact length_cacheErase_of_mem _ c (by simp [hlk])

/-- Witness for C1 at concrete inputs: a hit 90 seconds after the set
(TTL 3600), and an expired entry stored at time 10 looked up at time
4000. -/
theorem cache_ttl_roundtrip_and_lazy_expiry_witness :
    (AICache.get 3600 100 "p" "m" (AICache.set 10 "p" "m" (42 : Nat) [])).1 = some 42
    ∧ (AICache.get 3600 4000 "p" "m"
        [(AICache.generate_key "p" "m", (⟨42, 10⟩ : CacheEntry Nat))]).1 = none
    ∧ cacheLookup (AICache.generate_key "p" "m")
        (AICache.get 3600 4000 "p" "m"
          [(AICache.generate_key "p" "m", (⟨42, 10⟩ : CacheEntry Nat))]).2 = none
    ∧ AICache.statsSize (AICache.get 3600 4000 "p" "m"
          [(AICache.generate_key "p" "m", (⟨42, 10⟩ : CacheEntry Nat))]).2 + 1 = 1 := by
  have h₁ := cache_ttl_roundtrip_and_lazy_expiry.1 [] "p" "m" (42 : Nat) 3600 10 100
    (by decide) (by decide)
  have h₂ := cache_ttl_roundtrip_and_lazy_expiry.2
    [(AICache.generate_key "p" "m", (⟨42, 10⟩ : CacheEntry Nat))] "p" "m" 3600 4000
    ⟨42, 10⟩ (by simp [KeysNodup]) (by simp [cacheLookup]) (by decide)
  exact ⟨h₁, h₂.1, h₂.2.1, h₂.2.2⟩

/-! ### Claim C2: provider failure leaves the cache unwritten -/

/-- C2: when `AIService.chat` (with caching active) misses the cache and
the provider adapter call fails, the error propagates as the result of
`chat`, no entry for the `(prompt, resolved model)` pair is in the
resulting cache (an immediately following lookup misses), and every
other key's entry is untouched. -/
theorem chat_provider_failure_not_cached {α : Type}
    (ttl now : Nat) (prompt : String) (model : Option String)
    (default_model : String) (e : APIError) (cache : Cache α)
    (hnd : KeysNodup cache)
    (hmiss : (AICache.get ttl now prompt (model.getD default_model) cache).1 = none) :
    (AIService.chat ttl now prompt model true true default_model (.error e) cache).1
      = .error e
    ∧ cacheLookup (AICache.generate_key prompt (model.getD default_model))
        (AIService.chat ttl now prompt model true true default_model
          (.error e) cache).2 = none
    ∧ ∀ k, k ≠ AICache.generate_key prompt (model.getD default_model) →
        cacheLookup k (AIService.chat ttl now prompt model true true default_model
          (.error e) cache).2 = cacheLookup k cache := by
  set key := AICache.generate_key prompt (model.getD default_model) with hkey
  cases hlk : cacheLookup key cache with
  | none =>
      have hget : AICache.get ttl now prompt (model.getD default_model) cache
          = (none, cache) := by
        simp [AICache.get, ← hkey, hlk]
      simp [AIService.chat, hget, hlk]
  | some entry =>
      by_cases hfresh : now - entry.timestamp < ttl
      · exfalso
        have : (AICache.get ttl now prompt (model.getD default_model) cache).1
            = some entry.response := by
          simp [AICache.get, ← hkey, hlk, hfresh]
        rw [this] at hmiss
        exact Option.some_ne_none _ hmiss
      · have hget : AICache.get ttl now prompt (model.getD default_model) cache
            = (none, cacheErase key cache) := by
          simp [AICache.get, ← hkey, hlk, hfresh]
        refine ⟨?_, ?_, ?_⟩
        · simp [AIService.chat, hget]
        · simp only [AIService.chat, hget]
          exact cacheLookup_cacheErase_self key cache hnd
        · intro k hk
          simp only [AIService.chat, hget]
          exact cacheLookup_cacheErase_ne key k hk cache

/-- Witness for C2: empty cache, default model `phi3`, provider raising
a 503 connection error; the error propagates and the cache still misses
for the pair. -/
theorem chat_provider_failure_not_cached_witness :
    (AIService.chat 3600 0 "hello" none true true "phi3"
        (.error ⟨"AI service unavailable. Please ensure Ollama is running.", 503⟩)
        ([] : Cache Nat)).1
      = .error ⟨"AI service unavailable. Please ensure Ollama is running.", 503⟩
    ∧ cacheLookup (AICache.generate_key "hello" "phi3")
        (AIService.chat 3600 0 "hello" none true true "phi3"
          (.error ⟨"AI service unavailable. Please ensure Ollama is running.", 503⟩)
          ([] : Cache Nat)).2 = none := by
  have h := chat_provider_failure_not_cached 3600 0 "hello" none "phi3"
    ⟨"AI service unavailable. Please ensure Ollama is running.", 503⟩
    ([] : Cache Nat) (by simp [KeysNodup]) (by simp [AICache.get, cacheLookup])
  exact ⟨h.1, h.2.1⟩

/-! ### Claim C3: provider failure mapping -/

/-- C3 counterexample: the claim says every non-2xx HTTP response from
the provider raises an error carrying the upstream status code in both
adapters alike; for an upstream 404, `OllamaProvider.chat` raises
status 500 (its generic `RequestException` branch), not 404, while
`LMStudioProvider.chat` does carry the 404. -/
theorem provider_failure_mapping_counterexample :
    (OllamaProvider.chat_failure (.httpStatus 404 none "404 Client Error")).status_code
      = 500
    ∧ (500 : Nat) ≠ 404
    ∧ (LMStudioProvider.chat_failure (.httpStatus 404 none "404 Client Error")).status_code
      = 404 := by
  refine ⟨rfl, by decide, rfl⟩

/-- C3 amended: both adapters map a timeout to status 504 and a
connection error to status 503; a non-2xx HTTP response maps to the
upstream status code (with the body as detail where available) in the
LM Studio adapter, but to status 500 in the Ollama adapter. -/
theorem provider_failure_mapping :
    (OllamaProvider.chat_failure .timeout).status_code = 504
    ∧ (LMStudioProvider.chat_failure .timeout).status_code = 504
    ∧ (OllamaProvider.chat_failure .connectionError).status_code = 503
    ∧ (LMStudioProvider.chat_failure .connectionError).status_code = 503
    ∧ (∀ s body msg,
        (LMStudioProvider.chat_failure (.httpStatus s body msg)).status_code = s)
    ∧ (∀ s body msg,
        (OllamaProvider.chat_failure (.httpStatus s body msg)).status_code = 500) := by
  exact ⟨rfl, rfl, rfl, rfl, fun s body msg => rfl, fun s body msg => rfl⟩

/-! ### Claim C7: cache key derivation -/

theorem append_sep_inj {γ : Type} (c : γ) :
    ∀ (l₁ l₂ r₁ r₂ : List γ), c ∉ l₁ → c ∉ l₂ →
      l₁ ++ c :: r₁ = l₂ ++ c :: r₂ → l₁ = l₂ ∧ r₁ = r₂ := by
  intro l₁
  induction l₁ with
  | nil =>
      intro l₂ r₁ r₂ _ h₂ heq
      cases l₂ with
      | nil => simpa using heq
      | cons b l₂' =>
          exfalso
          simp only [List.nil_append, List.cons_append, List.cons.injEq] at heq
          exact h₂ (heq.1 ▸ List.mem_cons_self b l₂')
  | cons a l₁' ih =>
      intro l₂ r₁ r₂ h₁ h₂ heq
      cases l₂ with
      | nil =>
          exfalso
          simp only [List.cons_append, List.nil_append, List.cons.injEq] at heq
          exact h₁ (heq.1 ▸ List.mem_cons_self a l₁')
      | cons b l₂' =>
          simp only [List.cons_append, List.cons.injEq] at heq
          have h₁' : c ∉ l₁' := fun h => h₁ (List.mem_cons_of_mem a h)
          have h₂' : c ∉ l₂' := fun h => h₂ (List.mem_cons_of_mem b h)
          obtain ⟨hl, hr⟩ := ih l₂' r₁ r₂ h₁' h₂' heq.2
          exact ⟨by simp [heq.1, hl], hr⟩

/-- C7 counterexample: key derivation is not injective on
`(model, prompt)` pairs — the pairs `("a:b", "c")` and `("a", "b:c")`
differ yet derive the same content string `"a:b:c"` (hence the same MD5
key), and a `get` under one pair returns the entry stored under the
other. -/
theorem generate_key_not_injective :
    (("a:b", "c") : String × String) ≠ ("a", "b:c")
    ∧ AICache.generate_key "c" "a:b" = AICache.generate_key "b:c" "a"
    ∧ (AICache.get 3600 0 "b:c" "a" (AICache.set 0 "c" "a:b" (1 : Nat) [])).1
      = some 1 := by
  refine ⟨by decide, rfl, by decide⟩

/-- C7 amended: key derivation is deterministic (identical model and
prompt always derive the same key), and it is injective on pairs whose
model identifiers contain no `':'`; with a colon in the model the
`model:prompt` concatenation can coincide for distinct pairs. -/
theorem generate_key_injective_of_no_colon (m₁ p₁ m₂ p₂ : String)
    (h₁ : ':' ∉ m₁.data) (h₂ : ':' ∉ m₂.data) :
    AICache.generate_key p₁ m₁ = AICache.generate_key p₂ m₂
      ↔ (m₁ = m₂ ∧ p₁ = p₂) := by
  constructor
  · intro h
    have hdata : m₁.data ++ ':' :: p₁.data = m₂.data ++ ':' :: p₂.data := by
      have := congrArg String.data h
      simpa [AICache.generate_key, String.data_append] using this
    obtain ⟨hm, hp⟩ := append_sep_inj ':' m₁.data m₂.data p₁.data p₂.data h₁ h₂ hdata
    exact ⟨String.ext hm, String.ext hp⟩
  · rintro ⟨rfl, rfl⟩
    rfl

/-- Witness for C7's amended statement: colon-free models `"a"` let the
derivation separate the prompts `"x"` and `"y"`. -/
theorem generate_key_injective_of_no_colon_witness :
    (':' ∉ "a".data)
    ∧ AICache.generate_key "x" "a" ≠ AICache.generate_key "y" "a" := by
  refine ⟨by decide, fun h => ?_⟩
  have h' := (generate_key_injective_of_no_colon "a" "x" "a" "y"
    (by decide) (by decide)).mp h
  exact absurd h'.2 (by decide)

/-! ### Supporting lemmas for the memory-service theorems -/

theorem filter_updateFirst (p : UserMemoryRow → Bool) (f : UserMemoryRow → UserMemoryRow)
    (hpf : ∀ m, p m = true → p (f m) = true) :
    ∀ (l : List UserMemoryRow) (m : UserMemoryRow) (rest : List UserMemoryRow),
      l.filter p = m :: rest → (updateFirst p f l).filter p = f m :: rest := by
  intro l
  induction l with
  | nil => intro m rest h; simp at h
  | cons a l' ih =>
      intro m rest h
      cases hp : p a with
      | true =>
          rw [List.filter_cons_of_pos hp] at h
          injection h with h1 h2
          subst h1
          subst h2
          rw [show updateFirst p f (a :: l') = f a :: l' from by simp [updateFirst, hp]]
          rw [List.filter_cons_of_pos (hpf a hp)]
      | false =>
          rw [List.filter_cons_of_neg (by simp [hp])] at h
          simp [updateFirst, hp, List.filter_cons_of_neg, ih _ _ h]

theorem length_updateFirst (p : UserMemoryRow → Bool) (f : UserMemoryRow → UserMemoryRow) :
    ∀ l : List UserMemoryRow, (updateFirst p f l).length = l.length := by
  intro l
  induction l with
  | nil => rfl
  | cons a l' ih =>
      cases hp : p a <;> simp [updateFirst, hp, ih]

theorem save_memory_of_find_some (now u : Nat) (t k v : String) (c : ℚ) (i : Nat)
    (tbl : List UserMemoryRow) (m : UserMemoryRow)
    (h : find_memory u t k tbl = some m) :
    MemoryService.save_memory now u t k v c i tbl
      = updateFirst (mem_matches u t k) (overwriteMemory v c now) tbl := by
  simp only [MemoryService.save_memory, h]

theorem save_memory_of_find_none (now u : Nat) (t k v : String) (c : ℚ) (i : Nat)
    (tbl : List UserMemoryRow) (h : find_memory u t k tbl = none) :
    MemoryService.save_memory now u t k v c i tbl
      = tbl ++ [freshMemoryRow i u t k v c now] := by
  simp only [MemoryService.save_memory, h]

theorem insertCreatedDesc_of_min (x : ConversationRow) :
    ∀ l : List ConversationRow, (∀ y ∈ l, x.created_at ≤ y.created_at) →
      insertCreatedDesc x l = l ++ [x] := by
  intro l
  induction l with
  | nil => intro _; rfl
  | cons y ys ih =>
      intro hmin
      have hy : ¬ (y.created_at < x.created_at) := by
        have := hmin y (List.mem_cons_self y ys)
        omega
      have hys : ∀ z ∈ ys, x.created_at ≤ z.created_at :=
        fun z hz => hmin z (List.mem_cons_of_mem y hz)
      simp [insertCreatedDesc, hy, ih hys]

theorem sortCreatedDesc_of_pairwise :
    ∀ ms : List ConversationRow,
      ms.Pairwise (fun a b => a.created_at < b.created_at) →
      sortCreatedDesc ms = ms.reverse := by
  intro ms
  induction ms with
  | nil => intro _; rfl
  | cons a rest ih =>
      intro hpw
      rw [List.pairwise_cons] at hpw
      have hsort : sortCreatedDesc (a :: rest) = insertCreatedDesc a (sortCreatedDesc rest) := rfl
      rw [hsort, ih hpw.2]
      have hmin : ∀ y ∈ rest.reverse, a.created_at ≤ y.created_at := by
        intro y hy
        exact le_of_lt (hpw.1 y (List.mem_reverse.mp hy))
      rw [insertCreatedDesc_of_min a rest.reverse hmin, List.reverse_cons]

/-! ### Claim C4: conversation history is returned chronologically -/

/-- C4: when the rows of one user's session, in storage, are exactly
`ms` with strictly increasing `created_at` (messages saved in order),
`get_recent_conversations(user, limit=n, session_id=s)` returns the
`min(k, n)` most recent of them in ascending `created_at` order — the
storage query fetches them descending and the service reverses after
the fetch. -/
theorem get_recent_conversations_chronological
    (tbl ms : List ConversationRow) (u n : Nat) (s : String)
    (hs : s ≠ "")
    (hms : (tbl.filter (fun c => c.user_id == u)).filter (fun c => c.session_id == s) = ms)
    (hinc : ms.Pairwise (fun a b => a.created_at < b.created_at)) :
    MemoryService.get_recent_conversations u n (some s) tbl
      = ms.drop (ms.length - n)
    ∧ (MemoryService.get_recent_conversations u n (some s) tbl).length
      = min ms.length n := by
  have hmain : MemoryService.get_recent_conversations u n (some s) tbl
      = ms.drop (ms.length - n) := by
    have hred : MemoryService.get_recent_conversations u n (some s) tbl
        = ((sortCreatedDesc ((tbl.filter (fun c => c.user_id == u)).filter
            (fun c => c.session_id == s))).take n).reverse := by
      dsimp only [MemoryService.get_recent_conversations]
      rw [if_neg hs]
    rw [hred, hms, sortCreatedDesc_of_pairwise ms hinc, List.take_reverse,
      List.reverse_reverse]
  refine ⟨hmain, ?_⟩
  rw [hmain, List.length_drop]
  omega

/-- Witness for C4: three messages saved at times 1, 2, 3 for user 1 in
session `"s"`; `limit = 2` returns the last two in chronological
order. -/
theorem get_recent_conversations_chronological_witness :
    MemoryService.get_recent_conversations 1 2 (some "s")
        [⟨1, 1, "s", "user", "A", 0, 1⟩, ⟨2, 1, "s", "assistant", "B", 0, 2⟩,
         ⟨3, 1, "s", "user", "C", 0, 3⟩]
      = [⟨2, 1, "s", "assistant", "B", 0, 2⟩, ⟨3, 1, "s", "user", "C", 0, 3⟩] := by
  have h := get_recent_conversations_chronological
    [⟨1, 1, "s", "user", "A", 0, 1⟩, ⟨2, 1, "s", "assistant", "B", 0, 2⟩,
     ⟨3, 1, "s", "user", "C", 0, 3⟩]
    [⟨1, 1, "s", "user", "A", 0, 1⟩, ⟨2, 1, "s", "assistant", "B", 0, 2⟩,
     ⟨3, 1, "s", "user", "C", 0, 3⟩]
    1 2 "s" (by decide) (by decide)
    (by simp [List.pairwise_cons])
  exact h.1

/-! ### Claim C5: memory upsert -/

/-- C5: starting from a table holding at most one row for the triple
`(u, t, k)` (the spec's uniqueness invariant), saving `v₁` then `v₂`
for that triple leaves exactly one matching row, carrying the second
call's value and confidence with `updated_at` bumped to the second
call's time; and a save for an existing triple never changes the row
count. -/
theorem save_memory_upsert (tbl : List UserMemoryRow) (u : Nat)
    (t k v₁ v₂ : String) (c₁ c₂ : ℚ) (now₁ now₂ id₁ id₂ : Nat)
    (hone : (tbl.filter (mem_matches u t k)).length ≤ 1) :
    ((MemoryService.save_memory now₂ u t k v₂ c₂ id₂
        (MemoryService.save_memory now₁ u t k v₁ c₁ id₁ tbl)).filter
        (mem_matches u t k)).map (fun m => (m.value, m.confidence, m.updated_at))
      = [(v₂, c₂, now₂)]
    ∧ (∀ tbl' : List UserMemoryRow, find_memory u t k tbl' ≠ none →
        (MemoryService.save_memory now₂ u t k v₂ c₂ id₂ tbl').length = tbl'.length) := by
  constructor
  · cases hfl : tbl.filter (mem_matches u t k) with
    | nil =>
        have hfind : find_memory u t k tbl = none := by
          rw [find_memory, hfl]; rfl
        have hnew : mem_matches u t k (freshMemoryRow id₁ u t k v₁ c₁ now₁) = true := by
          simp [mem_matches, freshMemoryRow]
        have hdb₁ : MemoryService.save_memory now₁ u t k v₁ c₁ id₁ tbl
            = tbl ++ [freshMemoryRow id₁ u t k v₁ c₁ now₁] :=
          save_memory_of_find_none now₁ u t k v₁ c₁ id₁ tbl hfind
        have hfl₁ : (MemoryService.save_memory now₁ u t k v₁ c₁ id₁ tbl).filter
            (mem_matches u t k) = [freshMemoryRow id₁ u t k v₁ c₁ now₁] := by
          rw [hdb₁, List.filter_append, hfl, List.filter_cons_of_pos hnew]
          rfl
        have hfind₁ : find_memory u t k (MemoryService.save_memory now₁ u t k v₁ c₁ id₁ tbl)
            = some (freshMemoryRow id₁ u t k v₁ c₁ now₁) := by
          rw [find_memory, hfl₁]; rfl
        have hdb₂ : MemoryService.save_memory now₂ u t k v₂ c₂ id₂
            (MemoryService.save_memory now₁ u t k v₁ c₁ id₁ tbl)
            = updateFirst (mem_matches u t k) (overwriteMemory v₂ c₂ now₂)
                (MemoryService.save_memory now₁ u t k v₁ c₁ id₁ tbl) :=
          save_memory_of_find_some now₂ u t k v₂ c₂ id₂ _ _ hfind₁
        rw [hdb₂,
          filter_updateFirst (mem_matches u t k) (overwriteMemory v₂ c₂ now₂)
            (fun _ h => h) _ _ [] hfl₁]
        rfl
    | cons m rest =>
        have hrest : rest = [] := by
          rw [hfl] at hone
          simp only [List.length_cons] at hone
          exact List.length_eq_zero.mp (by omega)
        subst hrest
        have hfind : find_memory u t k tbl = some m := by
          rw [find_memory, hfl]; rfl
        have hdb₁ : MemoryService.save_memory now₁ u t k v₁ c₁ id₁ tbl
            = updateFirst (mem_matches u t k) (overwriteMemory v₁ c₁ now₁) tbl :=
          save_memory_of_find_some now₁ u t k v₁ c₁ id₁ tbl m hfind
        have hfl₁ : (MemoryService.save_memory now₁ u t k v₁ c₁ id₁ tbl).filter
            (mem_matches u t k) = [overwriteMemory v₁ c₁ now₁ m] := by
          rw [hdb₁,
            filter_updateFirst (mem_matches u t k) (overwriteMemory v₁ c₁ now₁)
              (fun _ h => h) _ _ [] hfl]
        have hfind₁ : find_memory u t k (MemoryService.save_memory now₁ u t k v₁ c₁ id₁ tbl)
            = some (overwriteMemory v₁ c₁ now₁ m) := by
          rw [find_memory, hfl₁]; rfl
        have hdb₂ : MemoryService.save_memory now₂ u t k v₂ c₂ id₂
            (MemoryService.save_memory now₁ u t k v₁ c₁ id₁ tbl)
            = updateFirst (mem_matches u t k) (overwriteMemory v₂ c₂ now₂)
                (MemoryService.save_memory now₁ u t k v₁ c₁ id₁ tbl) :=
          save_memory_of_find_some now₂ u t k v₂ c₂ id₂ _ _ hfind₁
        rw [hdb₂,
          filter_updateFirst (mem_matches u t k) (overwriteMemory v₂ c₂ now₂)
            (fun _ h => h) _ _ [] hfl₁]
        rfl
  · intro tbl' hne
    cases hf : find_memory u t k tbl' with
    | none => exact absurd hf hne
    | some m =>
        simp only [MemoryService.save_memory, hf]
        exact length_updateFirst _ _ tbl'

/-- Witness for C5: two saves of `('preference', 'theme')` for user 1
starting from the empty table leave exactly one row, with the second
value, confidence and timestamp. -/
theorem save_memory_upsert_witness :
    ((MemoryService.save_memory 20 1 "preference" "theme" "dark" 1 7
        (MemoryService.save_memory 10 1 "preference" "theme" "light" (1/2) 7 [])).filter
        (mem_matches 1 "preference" "theme")).map
        (fun m => (m.value, m.confidence, m.updated_at))
      = [("dark", 1, 20)]
    ∧ (MemoryService.save_memory 20 1 "preference" "theme" "dark" 1 7
        [⟨7, 1, "preference", "theme", "light", 1/2, 10, 0, none⟩]).length = 1 := by
  have h := save_memory_upsert [] 1 "preference" "theme" "light" "dark" (1/2) 1 10 20 7 7
    (by simp)
  refine ⟨h.1, ?_⟩
  have h2 := h.2 [⟨7, 1, "preference", "theme", "light", 1/2, 10, 0, none⟩]
    (by simp [find_memory, mem_matches])
  simpa using h2

/-! ### Claim C9: access telemetry -/

/-- C9 counterexample: the claim says `save_memory` on an existing row
increments `access_count` and sets `last_accessed` to the operation
time; saving over an existing row with `access_count = 7`,
`last_accessed = 5` at time 100 leaves both fields untouched (`7`,
`some 5`), not `(8, some 100)`. -/
theorem save_memory_no_telemetry_update :
    ((MemoryService.save_memory 100 1 "preference" "theme" "light" 1 99
        [⟨1, 1, "preference", "theme", "dark", 1, 50, 7, some 5⟩]).map
        (fun m => (m.access_count, m.last_accessed)))
      = [(7, some 5)]
    ∧ ((7 : Nat), (some 5 : Option Nat)) ≠ ((8 : Nat), (some 100 : Option Nat)) := by
  refine ⟨by decide, by decide⟩

/-- C9 amended: `get_memory` on an existing row increments that row's
`access_count` and sets `last_accessed` to the operation time, both in
the returned dict and in the stored row; `save_memory` on an existing
row overwrites value, confidence and `updated_at` but leaves
`access_count` and `last_accessed` unchanged. -/
theorem memory_access_telemetry (now : Nat) (u : Nat) (t k : String)
    (tbl : List UserMemoryRow) (m : UserMemoryRow)
    (hfind : find_memory u t k tbl = some m) :
    ((MemoryService.get_memory now u t k tbl).1 = some (touchMemory now m)
      ∧ find_memory u t k (MemoryService.get_memory now u t k tbl).2
        = some (touchMemory now m))
    ∧ (∀ (now' : Nat) (v : String) (c : ℚ) (i : Nat),
        find_memory u t k (MemoryService.save_memory now' u t k v c i tbl)
          = some (overwriteMemory v c now' m)) := by
  obtain ⟨rest, hfl⟩ := List.head?_eq_some_iff.mp hfind
  refine ⟨⟨?_, ?_⟩, ?_⟩
  · simp only [MemoryService.get_memory, hfind]
  · simp only [MemoryService.get_memory, hfind]
    rw [find_memory,
      filter_updateFirst (mem_matches u t k) (touchMemory now) (fun _ h => h) tbl m rest hfl]
    rfl
  · intro now' v c i
    rw [save_memory_of_find_some now' u t k v c i tbl m hfind, find_memory,
      filter_updateFirst (mem_matches u t k) (overwriteMemory v c now') (fun _ h => h) tbl m rest hfl]
    rfl

/-- Witness for C9's amended statement: a single-row table for user 1;
`get_memory` at time 30 bumps the telemetry, a later save at time 40
keeps it. -/
theorem memory_access_telemetry_witness :
    (MemoryService.get_memory 30 1 "preference" "theme"
        [⟨1, 1, "preference", "theme", "dark", 1, 10, 7, some 5⟩]).1
      = some ⟨1, 1, "preference", "theme", "dark", 1, 10, 8, some 30⟩
    ∧ find_memory 1 "preference" "theme"
        (MemoryService.save_memory 40 1 "preference" "theme" "light" 1 99
          [⟨1, 1, "preference", "theme", "dark", 1, 10, 7, some 5⟩])
      = some ⟨1, 1, "preference", "theme", "light", 1, 40, 7, some 5⟩ := by
  have h := memory_access_telemetry 30 1 "preference" "theme"
    [⟨1, 1, "preference", "theme", "dark", 1, 10, 7, some 5⟩]
    ⟨1, 1, "preference", "theme", "dark", 1, 10, 7, some 5⟩
    (by simp [find_memory, mem_matches])
  exact ⟨h.1.1, h.2 40 "light" 1 99⟩

/-! ### Claim C6: relevant-memories policy -/

theorem dedupKeepFirstMemGo_congr :
    ∀ (fuel fuel' : Nat) (l : List UserMemoryRow), l.length ≤ fuel → l.length ≤ fuel' →
      dedupKeepFirstMemGo fuel l = dedupKeepFirstMemGo fuel' l := by
  intro fuel
  induction fuel with
  | zero =>
      intro fuel' l hl _
      have : l = [] := List.length_eq_zero.mp (by omega)
      subst this
      cases fuel' <;> rfl
  | succ f ih =>
      intro fuel' l hl hl'
      cases l with
      | nil => cases fuel' <;> rfl
      | cons m ms =>
          cases fuel' with
          | zero => simp at hl'
          | succ f' =>
              simp only [dedupKeepFirstMemGo, List.cons.injEq, true_and]
              exact ih f' (ms.filter (fun x => !(x.id == m.id)))
                (le_trans (List.length_filter_le _ _) (by simpa using hl))
                (le_trans (List.length_filter_le _ _) (by simpa using hl'))

theorem dedupByIdLoop_eq_go :
    ∀ (fuel : Nat) (l : List UserMemoryRow) (seen : List Nat), l.length ≤ fuel →
      dedupByIdLoop l seen
        = dedupKeepFirstMemGo fuel (l.filter (fun m => !(seen.contains m.id))) := by
  intro fuel
  induction fuel with
  | zero =>
      intro l seen hl
      have : l = [] := List.length_eq_zero.mp (by omega)
      subst this
      rfl
  | succ f ih =>
      intro l seen hl
      cases l with
      | nil => rfl
      | cons m ms =>
          have hms : ms.length ≤ f := by simpa using hl
          cases hc : seen.contains m.id with
          | true =>
              rw [List.filter_cons_of_neg (by rw [hc]; decide)]
              rw [show dedupByIdLoop (m :: ms) seen = dedupByIdLoop ms seen from by
                simp only [dedupByIdLoop]; rw [if_pos hc]]
              rw [ih ms seen hms]
              exact dedupKeepFirstMemGo_congr f (f + 1) _
                (le_trans (List.length_filter_le _ _) hms)
                (le_trans (List.length_filter_le _ _) (by omega))
          | false =>
              rw [List.filter_cons_of_pos (by rw [hc]; decide)]
              rw [show dedupByIdLoop (m :: ms) seen
                  = m :: dedupByIdLoop ms (m.id :: seen) from by
                simp only [dedupByIdLoop]; rw [if_neg (by rw [hc]; decide)]]
              simp only [dedupKeepFirstMemGo, List.cons.injEq, true_and]
              rw [ih ms (m.id :: seen) hms, List.filter_filter]
              congr 1
              refine List.filter_congr (fun x _ => ?_)
              rw [List.contains_cons, Bool.not_or]

theorem filter_contains_nil_seen (l : List UserMemoryRow) :
    l.filter (fun m => !(([] : List Nat).contains m.id)) = l := by
  have h : (fun (m : UserMemoryRow) => !(([] : List Nat).contains m.id))
      = fun _ => true := by
    funext m
    rfl
  rw [h, List.filter_true]

theorem foldl_append_eq_flatMap {σ τ : Type} (g : σ → List τ) :
    ∀ (l : List σ) (acc : List τ),
      l.foldl (fun a x => a ++ g x) acc = acc ++ l.flatMap g := by
  intro l
  induction l with
  | nil => intro acc; simp
  | cons x xs ih =>
      intro acc
      simp only [List.foldl_cons, List.flatMap_cons, ih, List.append_assoc]

/-- C6 counterexample: the claim's policy keeps the first 3 **distinct**
keywords, the code keeps the first 3 keywords with duplicates.  For the
message `"alpha alpha alpha bravo"` over a table whose only row matches
the keyword `"bravo"`, the code searches `"alpha"` three times and
returns nothing, while the claimed policy reaches `"bravo"` and returns
the row. -/
theorem relevant_memories_not_distinct_keywords :
    MemoryService.get_relevant_memories 1 "alpha alpha alpha bravo"
        [⟨1, 1, "preference", "bravo", "x", 1, 0, 0, none⟩] = []
    ∧ spec_relevant_memories_policy 1 "alpha alpha alpha bravo"
        [⟨1, 1, "preference", "bravo", "x", 1, 0, 0, none⟩]
      = [⟨1, 1, "preference", "bravo", "x", 1, 0, 0, none⟩] := by
  exact ⟨by decide, by decide⟩

/-- C6 amended: `_get_relevant_memories` computes exactly the spec's
policy with one change — the first 3 keywords are kept with their
duplicates (no distinctness filter): words longer than 4 characters,
first 3 keywords, up to 2 substring matches per keyword in keyword
order, deduplicated by memory id keeping first occurrences, capped at
5. -/
theorem get_relevant_memories_eq_amended_policy (u : Nat) (message : String)
    (tbl : List UserMemoryRow) :
    MemoryService.get_relevant_memories u message tbl
      = amended_relevant_memories_policy u message tbl := by
  simp only [MemoryService.get_relevant_memories, amended_relevant_memories_policy,
    dedupKeepFirstMem]
  rw [foldl_append_eq_flatMap, List.nil_append,
    dedupByIdLoop_eq_go
      (((extract_keywords message).take 3).flatMap
        (fun kw => MemoryService.search_memories u kw 2 tbl)).length _ [] (le_refl _),
    filter_contains_nil_seen]

/-! ### Claim C8: agent execution -/

/-- C8 counterexample: the claim demands a 404 for every `agent_name`
outside the four known template names; `"Benchmarking"` is not one of
them, yet `execute_agent` succeeds (the code lowercases and
underscore-joins the name before the lookup). -/
theorem execute_agent_unknown_name_counterexample :
    ("Benchmarking" ∉ PromptTemplates.AGENTS.map Prod.fst)
    ∧ (AIService.execute_agent "Benchmarking" "ctx").isOk = true := by
  exact ⟨by decide, by decide⟩

/-- C8 amended: for every `agent_name` whose normalization (lowercase,
spaces to underscores) is not a known template key, `execute_agent`
raises status 404 with the `Unknown agent` message and never reaches
the `chat` dispatch; when the normalization is known, the formatted
template is dispatched through `chat` with a 60-second timeout. -/
theorem execute_agent_dispatch (agent_name context : String) :
    (strReplace (strToLower agent_name) " " "_" ∉ PromptTemplates.AGENTS.map Prod.fst →
      AIService.execute_agent agent_name context
        = .error ⟨"Unknown agent: " ++ agent_name, 404⟩)
    ∧ (∀ pr, PromptTemplates.AGENTS.find?
          (fun p => p.1 == strReplace (strToLower agent_name) " " "_") = some pr →
        AIService.execute_agent agent_name context
          = .ok ⟨strReplace pr.2 "\x7bcontext\x7d" context, 60⟩) := by
  constructor
  · intro hmem
    have hfind : PromptTemplates.AGENTS.find?
        (fun p => p.1 == strReplace (strToLower agent_name) " " "_") = none := by
      rw [List.find?_eq_none]
      intro x hx
      simp only [beq_iff_eq]
      intro heq
      exact hmem (heq ▸ List.mem_map_of_mem Prod.fst hx)
    simp only [AIService.execute_agent, PromptTemplates.get_agent_prompt, hfind,
      Option.map_none']
  · intro pr hfind
    simp only [AIService.execute_agent, PromptTemplates.get_agent_prompt, hfind,
      Option.map_some']

/-- Witness for C8's amended statement: `"nonexistent"` normalizes to
itself and yields the 404 error; `"Data Analysis"` normalizes to the
known key `data_analysis` and is dispatched. -/
theorem execute_agent_dispatch_witness :
    AIService.execute_agent "nonexistent" "ctx"
      = .error ⟨"Unknown agent: nonexistent", 404⟩
    ∧ (AIService.execute_agent "Data Analysis" "ctx").isOk = true := by
  constructor
  · exact (execute_agent_dispatch "nonexistent" "ctx").1 (by decide)
  · cases hf : PromptTemplates.AGENTS.find?
        (fun p => p.1 == strReplace (strToLower "Data Analysis") " " "_") with
    | none => exact absurd hf (by decide)
    | some pr =>
        rw [(execute_agent_dispatch "Data Analysis" "ctx").2 pr hf]
        rfl

/-! ### Claim C10: at most five tasks are rendered -/

theorem take_five_isEmpty (l : List TaskCtx) : (l.take 5).isEmpty = l.isEmpty := by
  cases l <;> rfl

/-- C10: `format_context_for_ai` renders at most the first 5 entries of
`active_tasks` — its output is unchanged when the list is truncated to
its first 5 elements, so tasks beyond the fifth are silently omitted —
even though `_get_tasks_context` can hand `build_ai_context` up to 10
tasks. -/
theorem format_context_renders_first_five_tasks :
    (∀ ctx : AIContext,
      MemoryService.format_context_for_ai ctx
        = MemoryService.format_context_for_ai
            { ctx with active_tasks := ctx.active_tasks.take 5 })
    ∧ (∀ (u : Nat) (tbl : List TaskRow),
        (MemoryService.get_tasks_context u tbl).length ≤ 10) := by
  constructor
  · intro ctx
    simp only [MemoryService.format_context_for_ai, take_five_isEmpty, List.take_take,
      Nat.min_self]
  · intro u tbl
    simp only [MemoryService.get_tasks_context]
    exact List.length_take_le _ _

end AlexBackend
